import Mathlib

/-!
Verification of the OVERTURE-Play stream-resolution core against its
natural-language specification.  The Go sources are shallowly embedded:
pure functions become Lean functions, Go runtime panics become `none`,
fallible operations return `Except`, and the HTTP/JS boundaries are
abstracted as explicit outcome parameters.
-/

namespace OverturePlay

/-! ## Signature decipher (src/V2/decipher/decipher.go, `decipherSignature`) -/

/-- Fold a list of decimal digit characters into the natural number they denote. -/
def digitsToNat (l : List Char) : Nat :=
  l.foldl (fun acc c => acc * 10 + (c.toNat - Char.toNat '0')) 0

/-- Go `strconv.Atoi`, signed 64-bit range check: a parsed value outside
the `int64` range is an error. -/
def goAtoiRange (v : Int) : Option Int :=
  if -(2 ^ 63) ≤ v ∧ v < 2 ^ 63 then some v else none

/-- Go `strconv.Atoi`, digit part: one or more decimal digits (after the
optional sign recorded in `neg`), range-checked. -/
def goAtoiDigits (digits : List Char) (neg : Bool) : Option Int :=
  if digits ≠ [] ∧ digits.all Char.isDigit then
    goAtoiRange (if neg then -(digitsToNat digits : Int) else (digitsToNat digits : Int))
  else none

/-- Go `strconv.Atoi`: an optional sign followed by one or more decimal digits,
whose value must fit in a signed 64-bit integer; every other input is an
error (`none`).  The V2 decipher only uses the error bit and the value. -/
def goAtoi (s : String) : Option Int :=
  match s.data with
  | [] => none
  | c :: rest =>
    if c = '-' then goAtoiDigits rest true
    else if c = '+' then goAtoiDigits rest false
    else goAtoiDigits (c :: rest) false

/-- Go parallel assignment `arr[i], arr[j] = arr[j], arr[i]` for in-range
indices; out-of-range indices leave the list unchanged (the call sites
guard the ranges; the guard failures are modelled at the call sites). -/
def listSwap {α : Type} (l : List α) (i j : Nat) : List α :=
  match l.get? i, l.get? j with
  | some a, some b => (l.set i b).set j a
  | _, _ => l

/-- The `s` and `p` cases of the V2 token loop (identical in the Go source):
when `Atoi` succeeded and `pos < len(arr)`, take `arr[pos:]`; a negative
`pos` makes that slice expression panic (`none`). -/
def sliceStep (arr : List Char) (o : Option Int) : Option (List Char) :=
  match o with
  | some pos =>
    if pos < (arr.length : Int) then
      if pos < 0 then none else some (arr.drop pos.toNat)
    else some arr
  | none => some arr

/-- The `w` case of the V2 token loop: `swapPos := pos % len(arr)` panics by
zero division when the array is empty, and `arr[swapPos]` panics when the
truncated remainder is negative (Go `%` truncates toward zero). -/
def swapStep (arr : List Char) (o : Option Int) : Option (List Char) :=
  match o with
  | some pos =>
    if arr.length = 0 then none
    else if Int.tmod pos (arr.length : Int) < 0 then none
    else some (listSwap arr 0 (Int.tmod pos (arr.length : Int)).toNat)
  | none => some arr

/-- One iteration of the token loop of `decipherSignature`
(src/V2/decipher/decipher.go lines 152-183).  `none` models a Go runtime
panic. -/
def sigTokenStep (arr : List Char) (token : String) : Option (List Char) :=
  match token.data with
  | [] => some arr
  | c :: rest =>
    if c = 'r' then some arr.reverse
    else if c = 's' then sliceStep arr (goAtoi (String.mk rest))
    else if c = 'p' then sliceStep arr (goAtoi (String.mk rest))
    else if c = 'w' then swapStep arr (goAtoi (String.mk rest))
    else some arr

/-- `Decipherer.decipherSignature`: split the signature into characters,
apply every token in order, rejoin.  `none` models a panic of the Go code. -/
def decipherSignature (tokens : List String) (sig : String) : Option String :=
  (tokens.foldlM sigTokenStep sig.data).map fun arr => String.mk arr

/-! ## Reference replay from the specification (spec.md section 4.2) -/

/-- A token of the signature token grammar:
`r`, `s<N>`, `p<N>`, `w<N>` with `N` an unsigned decimal number. -/
inductive SpecTok : Type where
  | r : SpecTok
  | s : Nat → SpecTok
  | p : Nat → SpecTok
  | w : Nat → SpecTok
deriving DecidableEq, Repr

/-- Numeric operand of a token (0 for `r`). -/
def SpecTok.operand : SpecTok → Nat
  | .r => 0
  | .s n => n
  | .p n => n
  | .w n => n

/-- Whether the token is a swap token. -/
def SpecTok.isSwap : SpecTok → Bool
  | .w _ => true
  | _ => false

/-- Parse a non-empty all-digit character list. -/
def parseDigits (l : List Char) : Option Nat :=
  if l ≠ [] ∧ l.all Char.isDigit then some (digitsToNat l) else none

/-- Parse a token string of the spec grammar; anything else is `none`. -/
def specTokOfString (t : String) : Option SpecTok :=
  match t.data with
  | [] => none
  | c :: rest =>
    if c = 'r' then (if rest = [] then some SpecTok.r else none)
    else if c = 's' then (parseDigits rest).map SpecTok.s
    else if c = 'p' then (parseDigits rest).map SpecTok.p
    else if c = 'w' then (parseDigits rest).map SpecTok.w
    else none

/-- Reference semantics of one token, from the spec (section 4.2 Replay):
`r` reverses; `s N` and `p N` drop the first `N` characters when `N < len`;
`w N` swaps positions 0 and `N mod len`. -/
def specTokStep (arr : List Char) (t : SpecTok) : List Char :=
  match t with
  | .r => arr.reverse
  | .s n => if n < arr.length then arr.drop n else arr
  | .p n => if n < arr.length then arr.drop n else arr
  | .w n => listSwap arr 0 (n % arr.length)

/-- Reference replay: split into characters, apply each parseable token in
source order (an unparseable token is skipped, per the spec's edge cases),
rejoin.  A pure total function of (token list, signature). -/
def decipherSpec (tokens : List String) (sig : String) : String :=
  String.mk (tokens.foldl
    (fun arr t =>
      match specTokOfString t with
      | some st => specTokStep arr st
      | none => arr)
    sig.data)

/-- Executable well-formedness of a token string: it belongs to the spec
grammar and its operand fits the positive range of a 64-bit integer. -/
def wfTok (t : String) : Bool :=
  match specTokOfString t with
  | some st => decide (st.operand < 2 ^ 63)
  | none => false

/-- Executable test for a grammar swap token. -/
def swapTok (t : String) : Bool :=
  match specTokOfString t with
  | some st => st.isSwap
  | none => false

theorem char_isDigit_ne_sign {c : Char} (h : c.isDigit = true) : c ≠ '-' ∧ c ≠ '+' := by
  constructor <;> · intro hc; subst hc; exact absurd h (by decide)

theorem string_data_mk (l : List Char) : (String.mk l).data = l := rfl

theorem goAtoiDigits_eval {l : List Char} {n : Nat} (hp : parseDigits l = some n)
    (hb : n < 2 ^ 63) : goAtoiDigits l false = some (n : Int) := by
  unfold parseDigits at hp
  split at hp
  · rename_i hcond
    have hn : digitsToNat l = n := by simpa using hp
    have h1 : -(2 ^ 63 : Int) ≤ (n : Int) :=
      le_trans (by norm_num : -(2 ^ 63 : Int) ≤ 0) (Int.ofNat_nonneg n)
    have h2 : (n : Int) < 2 ^ 63 := by exact_mod_cast hb
    unfold goAtoiDigits
    rw [if_pos hcond]
    show goAtoiRange ((digitsToNat l : Nat) : Int) = some (n : Int)
    rw [hn]
    unfold goAtoiRange
    rw [if_pos ⟨h1, h2⟩]
  · exact absurd hp (by simp)

theorem goAtoi_of_digits {l : List Char} {n : Nat} (hp : parseDigits l = some n)
    (hb : n < 2 ^ 63) : goAtoi (String.mk l) = some (n : Int) := by
  have hcond : l ≠ [] ∧ l.all Char.isDigit := by
    unfold parseDigits at hp
    split at hp
    · assumption
    · exact absurd hp (by simp)
  cases l with
  | nil => exact absurd rfl hcond.1
  | cons c cs =>
    have hcd : c.isDigit = true := List.all_eq_true.mp hcond.2 c (List.mem_cons_self c cs)
    obtain ⟨h1, h2⟩ := char_isDigit_ne_sign hcd
    have hred : goAtoi (String.mk (c :: cs)) =
        (if c = '-' then goAtoiDigits cs true
         else if c = '+' then goAtoiDigits cs false
         else goAtoiDigits (c :: cs) false) := rfl
    rw [hred, if_neg h1, if_neg h2]
    exact goAtoiDigits_eval hp hb

theorem listSwap_length {α : Type} (l : List α) (i j : Nat) :
    (listSwap l i j).length = l.length := by
  unfold listSwap
  split <;> simp

theorem specTokStep_ne_nil {arr : List Char} (h : arr ≠ []) (st : SpecTok) :
    specTokStep arr st ≠ [] := by
  cases st with
  | r =>
    intro hnil
    exact h (List.reverse_eq_nil_iff.mp hnil)
  | s n =>
    simp only [specTokStep]
    split
    · rename_i hlt
      intro hnil
      have hlen := congrArg List.length hnil
      simp [List.length_drop] at hlen
      omega
    · exact h
  | p n =>
    simp only [specTokStep]
    split
    · rename_i hlt
      intro hnil
      have hlen := congrArg List.length hnil
      simp [List.length_drop] at hlen
      omega
    · exact h
  | w n =>
    simp only [specTokStep]
    intro hnil
    have hlen := congrArg List.length hnil
    rw [listSwap_length] at hlen
    simp at hlen
    exact h hlen

theorem sliceStep_eval {arr : List Char} {m : Nat} :
    sliceStep arr (some (m : Int)) =
      some (if m < arr.length then arr.drop m else arr) := by
  simp only [sliceStep]
  by_cases hlt : m < arr.length
  · rw [if_pos (by exact_mod_cast hlt),
      if_neg (not_lt.mpr (Int.ofNat_nonneg m)), if_pos hlt]
    simp
  · rw [if_neg (by exact_mod_cast hlt), if_neg hlt]

theorem swapStep_eval {arr : List Char} {m : Nat} (h : arr ≠ []) :
    swapStep arr (some (m : Int)) = some (listSwap arr 0 (m % arr.length)) := by
  have hlen : arr.length ≠ 0 := fun hz => h (List.length_eq_zero.mp hz)
  have htm : Int.tmod (m : Int) (arr.length : Int) = ((m % arr.length : Nat) : Int) := rfl
  simp only [swapStep]
  rw [if_neg hlen, htm, if_neg (not_lt.mpr (Int.ofNat_nonneg _)), Int.toNat_ofNat]

theorem sigTokenStep_eq_spec {arr : List Char} {t : String} {st : SpecTok}
    (hp : specTokOfString t = some st) (hb : st.operand < 2 ^ 63)
    (hw : st.isSwap = true → arr ≠ []) :
    sigTokenStep arr t = some (specTokStep arr st) := by
  obtain ⟨l⟩ := t
  cases l with
  | nil => exact absurd hp (by simp [specTokOfString])
  | cons c rest =>
    have hpred : specTokOfString (String.mk (c :: rest)) =
        (if c = 'r' then (if rest = [] then some SpecTok.r else none)
         else if c = 's' then (parseDigits rest).map SpecTok.s
         else if c = 'p' then (parseDigits rest).map SpecTok.p
         else if c = 'w' then (parseDigits rest).map SpecTok.w
         else none) := rfl
    have hsred : sigTokenStep arr (String.mk (c :: rest)) =
        (if c = 'r' then some arr.reverse
         else if c = 's' then sliceStep arr (goAtoi (String.mk rest))
         else if c = 'p' then sliceStep arr (goAtoi (String.mk rest))
         else if c = 'w' then swapStep arr (goAtoi (String.mk rest))
         else some arr) := rfl
    rw [hpred] at hp
    rw [hsred]
    by_cases hr : c = 'r'
    · rw [if_pos hr] at hp ⊢
      split at hp
      · cases hp
        rfl
      · exact absurd hp (by simp)
    · rw [if_neg hr] at hp ⊢
      by_cases hs : c = 's'
      · rw [if_pos hs] at hp ⊢
        obtain ⟨m, hm, rfl⟩ := Option.map_eq_some'.mp hp
        rw [goAtoi_of_digits hm (by exact hb), sliceStep_eval]
        rfl
      · rw [if_neg hs] at hp ⊢
        by_cases hq : c = 'p'
        · rw [if_pos hq] at hp ⊢
          obtain ⟨m, hm, rfl⟩ := Option.map_eq_some'.mp hp
          rw [goAtoi_of_digits hm (by exact hb), sliceStep_eval]
          rfl
        · rw [if_neg hq] at hp ⊢
          by_cases hwc : c = 'w'
          · rw [if_pos hwc] at hp ⊢
            obtain ⟨m, hm, rfl⟩ := Option.map_eq_some'.mp hp
            rw [goAtoi_of_digits hm (by exact hb), swapStep_eval (hw rfl)]
            rfl
          · exact absurd hp (by rw [if_neg hwc]; simp)

theorem replay_core (tokens : List String) (arr : List Char)
    (hwf : ∀ t ∈ tokens, wfTok t = true)
    (hinv : arr ≠ [] ∨ ∀ t ∈ tokens, swapTok t = false) :
    tokens.foldlM sigTokenStep arr =
      some (tokens.foldl
        (fun a t =>
          match specTokOfString t with
          | some st => specTokStep a st
          | none => a)
        arr) := by
  induction tokens generalizing arr with
  | nil => rfl
  | cons t ts ih =>
    have hwt := hwf t (List.mem_cons_self t ts)
    unfold wfTok at hwt
    obtain ⟨st, hp, hb⟩ : ∃ st, specTokOfString t = some st ∧ st.operand < 2 ^ 63 := by
      revert hwt
      cases hps : specTokOfString t with
      | none => simp
      | some st => intro hwt; exact ⟨st, rfl, by simpa using hwt⟩
    have hstep : sigTokenStep arr t = some (specTokStep arr st) := by
      refine sigTokenStep_eq_spec hp hb ?_
      intro hsw
      rcases hinv with h | h
      · exact h
      · have hst := h t (List.mem_cons_self t ts)
        unfold swapTok at hst
        rw [hp] at hst
        have hst2 : st.isSwap = false := hst
        exact absurd hsw (by simp [hst2])
    rw [List.foldlM_cons, hstep]
    show ts.foldlM sigTokenStep (specTokStep arr st) = _
    rw [List.foldl_cons]
    have hnext :
        (match specTokOfString t with
          | some st => specTokStep arr st
          | none => arr) = specTokStep arr st := by rw [hp]
    rw [hnext]
    refine ih (specTokStep arr st) (fun u hu => hwf u (List.mem_cons_of_mem t hu)) ?_
    rcases hinv with h | h
    · exact Or.inl (specTokStep_ne_nil h st)
    · exact Or.inr fun u hu => h u (List.mem_cons_of_mem t hu)

/-- C1 (amended).  For every token list drawn from the spec token grammar
(`r`, or `s`/`p`/`w` followed by decimal digits denoting a value below
`2 ^ 63`), and every signature that is non-empty whenever the list contains
a `w` token, the V2 replay `decipherSignature` succeeds and equals the
reference replay of spec.md section 4.2: split to characters, `r` reverses,
`s N`/`p N` drop the first `N` characters when `N < len`, `w N` swaps
positions 0 and `N mod len`, rejoin.  Outside this domain the Go code can
panic (negative slice index, or `% 0` on an empty array). -/
theorem signature_replay_matches_reference (tokens : List String) (sig : String)
    (hwf : ∀ t ∈ tokens, wfTok t = true)
    (hsw : sig ≠ "" ∨ ∀ t ∈ tokens, swapTok t = false) :
    decipherSignature tokens sig = some (decipherSpec tokens sig) := by
  have harr : sig.data ≠ [] ∨ ∀ t ∈ tokens, swapTok t = false := by
    rcases hsw with h | h
    · left
      intro hd
      apply h
      obtain ⟨l⟩ := sig
      have hl : l = [] := hd
      rw [hl]
    · exact Or.inr h
  unfold decipherSignature decipherSpec
  rw [replay_core tokens sig.data hwf harr]
  rfl

/-- Witness for C1: a concrete grammar-conformant token list and non-empty
signature on which the replay and the reference agree. -/
theorem signature_replay_matches_reference_witness :
    decipherSignature ["r", "s2", "w1"] "abcdef" =
      some (decipherSpec ["r", "s2", "w1"] "abcdef") :=
  signature_replay_matches_reference ["r", "s2", "w1"] "abcdef" (by decide)
    (Or.inl (by decide))

/-- Counterexample to C1 as stated: on the token list `["w2"]` and the empty
signature, the Go replay panics (`pos % len(arr)` divides by zero), while the
reference replay returns the empty string, so the two differ. -/
theorem signature_replay_cex :
    decipherSignature ["w2"] "" ≠ some (decipherSpec ["w2"] "") := by decide

/-- C2: the replay is not panic-free.  On the adversarial-but-grammatical
token list `["w0"]` and the empty input string, `decipherSignature` computes
`pos % len(arr)` with `len(arr) = 0` and panics with a division by zero
(modelled as `none`), contradicting the spec sentence
"No token is allowed to panic". -/
theorem signature_replay_panics_on_empty :
    decipherSignature ["w0"] "" = none := by decide

/-! ## Proof-of-origin token provider (src/V2/pot/provider.go)

Time is modelled in seconds as `Int`; the single HTTP interaction of one
`GetToken` call is abstracted as an `OracleOutcome` parameter. -/

/-- A cached token with its absolute expiry (`cachedToken` in provider.go). -/
structure CachedToken : Type where
  token : String
  expiresAt : Int
deriving DecidableEq, Repr

/-- Provider state: binding-keyed cache plus the default TTL
(`Provider.cache`, `Provider.cacheTTL`). -/
structure ProviderState : Type where
  cache : List (String × CachedToken)
  cacheTTL : Int
deriving DecidableEq, Repr

/-- `cacheTTL` set by `NewProvider`: `5 * time.Hour`, in seconds. -/
def fiveHoursSeconds : Int := 5 * 3600

/-- `NewProvider`: empty cache, five-hour default TTL. -/
def newProviderState : ProviderState :=
  { cache := [], cacheTTL := fiveHoursSeconds }

/-- Go map assignment `p.cache[binding] = ct` on the association-list model. -/
def insertCache (cache : List (String × CachedToken)) (binding : String)
    (ct : CachedToken) : List (String × CachedToken) :=
  match cache with
  | [] => [(binding, ct)]
  | (k, v) :: rest =>
    if k = binding then (k, ct) :: rest else (k, v) :: insertCache rest binding ct

/-- Outcome of the one `POST /get_pot` exchange of `generateToken`:
either the transport/read/JSON-decode step failed, or a decoded response
arrived with its `error` field, its `poToken` field and its `expiresAt`
field (`none` models the zero `time.Time`, i.e. the server provided no
expiry). -/
inductive OracleOutcome : Type where
  | transportFailure : String → OracleOutcome
  | response : String → String → Option Int → OracleOutcome
deriving DecidableEq, Repr

/-- `Provider.generateToken` (provider.go lines 156-204) after the HTTP
exchange: an error field or an empty token is an error; otherwise the token
is returned with the server expiry, defaulting to `now + cacheTTL` when the
server expiry is the zero time. -/
def generateToken (cacheTTL now : Int) (o : OracleOutcome) : Except String (String × Int) :=
  match o with
  | .transportFailure msg => .error msg
  | .response errField poToken expiresAt =>
    if errField ≠ "" then .error ("bgutil error: " ++ errField)
    else if poToken = "" then .error "bgutil returned empty token"
    else .ok (poToken, expiresAt.getD (now + cacheTTL))

/-- The read-locked cache probe of `GetTokenWithOptions` (provider.go lines
116-123): a cached token is served only while `now < expiresAt`. -/
def cacheHit (st : ProviderState) (now : Int) (binding : String) : Option String :=
  match List.lookup binding st.cache with
  | some ct => if now < ct.expiresAt then some ct.token else none
  | none => none

/-- `Provider.GetTokenWithOptions` (provider.go lines 114-140).  Returns the
result, the post-state, and the number of oracle POSTs issued (0 or 1). -/
def getTokenWithOptions (st : ProviderState) (now : Int) (binding : String)
    (o : OracleOutcome) : Except String String × ProviderState × Nat :=
  match cacheHit st now binding with
  | some tok => (.ok tok, st, 0)
  | none =>
    match generateToken st.cacheTTL now o with
    | .error e => (.error e, st, 1)
    | .ok (tok, exp) =>
      (.ok tok, { st with cache := insertCache st.cache binding ⟨tok, exp⟩ }, 1)

/-- `Provider.GetToken` forwards to `GetTokenWithOptions` with nil options. -/
def getToken (st : ProviderState) (now : Int) (binding : String) (o : OracleOutcome) :
    Except String String × ProviderState × Nat :=
  getTokenWithOptions st now binding o

/-- Consume `sep` from the front of `l`, returning the rest on a match. -/
def dropSep : List Char → List Char → Option (List Char)
  | [], l => some l
  | _ :: _, [] => none
  | c :: cs, x :: xs => if x = c then dropSep cs xs else none

/-- Fuel-driven core of Go `strings.Split` for a non-empty separator:
scan left to right, cutting at each leftmost separator occurrence.  The
fuel (always instantiated to more than the input length) only makes the
recursion structural. -/
def goSplitFuel (sep : List Char) : Nat → List Char → List Char → List (List Char)
  | 0, l, acc => [acc.reverse ++ l]
  | fuel + 1, l, acc =>
    match l with
    | [] => [acc.reverse]
    | x :: xs =>
      match dropSep sep (x :: xs) with
      | some rest => acc.reverse :: goSplitFuel sep fuel rest []
      | none => goSplitFuel sep fuel xs (x :: acc)

/-- Go `strings.Split(s, sep)` for a non-empty separator: the list of
substrings between leftmost non-overlapping occurrences of `sep`;
`Split("", sep) = [""]`. -/
def goSplit (s sep : String) : List String :=
  (goSplitFuel sep.data (s.data.length + 1) s.data []).map String.mk

/-- `extractSessionID` (provider.go lines 215-226): first `"||"`-separated
component when non-empty, otherwise the whole `dataSyncID`. -/
def extractSessionID (dataSyncID : String) : String :=
  if dataSyncID = "" then ""
  else
    match goSplit dataSyncID "||" with
    | [] => dataSyncID
    | p :: _ => if p ≠ "" then p else dataSyncID

/-- The content binding chosen by `Provider.GetGVSToken` (provider.go lines
144-153): the session id extracted from a non-empty `dataSyncID`, else the
visitor data. -/
def gvsBinding (visitorData dataSyncID : String) : String :=
  if dataSyncID ≠ "" then extractSessionID dataSyncID else visitorData

/-- `Provider.GetGVSToken`: compute the binding, then `GetToken`. -/
def getGVSToken (st : ProviderState) (now : Int) (visitorData dataSyncID : String)
    (o : OracleOutcome) : Except String String × ProviderState × Nat :=
  getToken st now (gvsBinding visitorData dataSyncID) o

/-- The binding prescribed by the claim wording for C6: the substring of
`data_sync_id` preceding the first `"||"` when `data_sync_id` is non-empty,
the visitor data otherwise. -/
def gvsBindingClaimed (visitorData dataSyncID : String) : String :=
  if dataSyncID ≠ "" then (goSplit dataSyncID "||").headD "" else visitorData

theorem lookup_insertCache_self (cache : List (String × CachedToken))
    (binding : String) (ct : CachedToken) :
    List.lookup binding (insertCache cache binding ct) = some ct := by
  induction cache with
  | nil => simp [insertCache, List.lookup]
  | cons p rest ih =>
    obtain ⟨k, v⟩ := p
    simp only [insertCache]
    by_cases hk : k = binding
    · rw [if_pos hk]
      subst hk
      simp [List.lookup]
    · rw [if_neg hk]
      have hbk : (binding == k) = false := by
        simp [beq_iff_eq]
        exact fun h => hk h.symm
      simp [List.lookup, hbk, ih]

/-- C5.  The token-cache discipline of `GetTokenWithOptions`:
(a) on a fresh cache entry the cached token is returned with no oracle POST
    and no state change;
(b) after any call that returned a token, a second call for the same binding
    made before that entry's expiry issues no POST, so the two calls
    together issue at most one POST;
(c) on a cache miss with a successful oracle exchange, the token is cached
    under the server-provided expiry when one is present, and under
    `now + cacheTTL` otherwise, where `NewProvider` sets `cacheTTL` to five
    hours. -/
theorem pot_get_token_cache_spec :
    (∀ (st : ProviderState) (now : Int) (binding : String) (o : OracleOutcome) (tok : String),
      cacheHit st now binding = some tok →
      getToken st now binding o = (.ok tok, st, 0)) ∧
    (∀ (st : ProviderState) (now₁ now₂ : Int) (binding : String) (o₁ o₂ : OracleOutcome)
        (tok : String) (ct : CachedToken),
      (getToken st now₁ binding o₁).1 = .ok tok →
      List.lookup binding (getToken st now₁ binding o₁).2.1.cache = some ct →
      now₂ < ct.expiresAt →
      (getToken st now₁ binding o₁).2.2 +
        (getToken (getToken st now₁ binding o₁).2.1 now₂ binding o₂).2.2 ≤ 1) ∧
    (∀ (st : ProviderState) (now : Int) (binding tok : String) (exp : Int),
      cacheHit st now binding = none → tok ≠ "" →
      getToken st now binding (.response "" tok (some exp)) =
        (.ok tok, { st with cache := insertCache st.cache binding ⟨tok, exp⟩ }, 1) ∧
      getToken st now binding (.response "" tok none) =
        (.ok tok,
          { st with cache := insertCache st.cache binding ⟨tok, now + st.cacheTTL⟩ }, 1)) ∧
    newProviderState.cacheTTL = 5 * 3600 := by
  refine ⟨?_, ?_, ?_, rfl⟩
  · intro st now binding o tok hhit
    simp [getToken, getTokenWithOptions, hhit]
  · intro st now₁ now₂ binding o₁ o₂ tok ct hok hlook hexp
    cases hh : cacheHit st now₁ binding with
    | some t₁ =>
      have hcall : getToken st now₁ binding o₁ = (.ok t₁, st, 0) := by
        simp [getToken, getTokenWithOptions, hh]
      rw [hcall] at hlook ⊢
      have hhit₂ : cacheHit st now₂ binding = some ct.token := by
        simp only at hlook
        simp [cacheHit, hlook, hexp]
      simp [getToken, getTokenWithOptions, hhit₂]
    | none =>
      cases hg : generateToken st.cacheTTL now₁ o₁ with
      | error e =>
        have hcall : (getToken st now₁ binding o₁).1 = .error e := by
          simp [getToken, getTokenWithOptions, hh, hg]
        rw [hcall] at hok
        exact absurd hok (by simp)
      | ok pair =>
        obtain ⟨t₁, e₁⟩ := pair
        have hcall : getToken st now₁ binding o₁ =
            (.ok t₁, { st with cache := insertCache st.cache binding ⟨t₁, e₁⟩ }, 1) := by
          simp [getToken, getTokenWithOptions, hh, hg]
        rw [hcall] at hlook ⊢
        have hhit₂ :
            cacheHit { st with cache := insertCache st.cache binding ⟨t₁, e₁⟩ } now₂ binding =
              some ct.token := by
          simp only at hlook
          simp [cacheHit, hlook, hexp]
        simp [getToken, getTokenWithOptions, hhit₂]
  · intro st now binding tok exp hmiss htok
    constructor
    · simp [getToken, getTokenWithOptions, hmiss, generateToken, htok]
    · simp [getToken, getTokenWithOptions, hmiss, generateToken, htok, Option.getD]

/-- Witness for C5 at concrete values: a provider whose cache holds a live
entry serves it without a POST; a fresh provider caches a served token with
the default five-hour expiry. -/
theorem pot_get_token_cache_spec_witness :
    getToken { cache := [("b", ⟨"tok", 100⟩)], cacheTTL := fiveHoursSeconds } 50 "b"
        (.transportFailure "down") =
      (.ok "tok", { cache := [("b", ⟨"tok", 100⟩)], cacheTTL := fiveHoursSeconds }, 0) ∧
    getToken newProviderState 7 "b" (.response "" "t2" none) =
      (.ok "t2", { cache := [("b", ⟨"t2", 7 + fiveHoursSeconds⟩)], cacheTTL := fiveHoursSeconds }, 1) := by
  constructor
  · exact pot_get_token_cache_spec.1
      { cache := [("b", ⟨"tok", 100⟩)], cacheTTL := fiveHoursSeconds } 50 "b"
      (.transportFailure "down") "tok" (by decide)
  · exact (pot_get_token_cache_spec.2.2.1 newProviderState 7 "b" "t2" 0 (by decide)
      (by decide)).2

/-- C10.  Failure atomicity of the token cache: whenever the oracle exchange
fails (transport/JSON failure, non-empty `error` field, or empty `poToken`),
`GetTokenWithOptions` returns that error and leaves the provider state —
in particular the cache, including any expired entry — exactly unchanged. -/
theorem pot_token_failure_atomic (st : ProviderState) (now : Int) (binding : String)
    (o : OracleOutcome) (e : String)
    (hmiss : cacheHit st now binding = none)
    (herr : generateToken st.cacheTTL now o = .error e) :
    getTokenWithOptions st now binding o = (.error e, st, 1) := by
  simp [getTokenWithOptions, hmiss, herr]

/-- Witness for C10: an expired entry stays in the cache untouched across a
failed regeneration (here: the oracle reports an empty token). -/
theorem pot_token_failure_atomic_witness :
    getTokenWithOptions { cache := [("b", ⟨"old", 10⟩)], cacheTTL := fiveHoursSeconds } 99 "b"
        (.response "" "" none) =
      (.error "bgutil returned empty token",
        { cache := [("b", ⟨"old", 10⟩)], cacheTTL := fiveHoursSeconds }, 1) :=
  pot_token_failure_atomic
    { cache := [("b", ⟨"old", 10⟩)], cacheTTL := fiveHoursSeconds } 99 "b"
    (.response "" "" none) "bgutil returned empty token" (by decide) rfl

/-- Counterexample to C6 as stated: for `data_sync_id = "||B"` (non-empty),
the substring preceding the first `"||"` is `""`, but `GetGVSToken` binds to
the whole `"||B"` because `extractSessionID` falls back to the full string
when the first component is empty. -/
theorem gvs_binding_cex :
    gvsBinding "V" "||B" ≠ gvsBindingClaimed "V" "||B" := by decide

/-- C6 (amended).  The GVS content binding is: the substring of
`data_sync_id` preceding the first `"||"` when `data_sync_id` is non-empty
and that substring is non-empty; the whole `data_sync_id` when it is
non-empty but starts with `"||"`; the visitor data when `data_sync_id` is
empty.  `GetGVSToken` then calls `GetToken` on exactly that binding. -/
theorem gvs_binding_spec (st : ProviderState) (now : Int)
    (visitorData dataSyncID : String) (o : OracleOutcome) :
    gvsBinding visitorData dataSyncID =
      (if dataSyncID = "" then visitorData
       else if (goSplit dataSyncID "||").headD "" ≠ "" then
         (goSplit dataSyncID "||").headD ""
       else dataSyncID) ∧
    getGVSToken st now visitorData dataSyncID o =
      getToken st now (gvsBinding visitorData dataSyncID) o := by
  refine ⟨?_, rfl⟩
  by_cases hd : dataSyncID = ""
  · simp [gvsBinding, hd]
  · rw [if_neg hd]
    simp only [gvsBinding, if_pos hd, extractSessionID, if_neg hd]
    cases hs : goSplit dataSyncID "||" with
    | nil => simp
    | cons p rest =>
      simp

/-! ## N-parameter solver (src/V2/decipher/nsolver.go, `NSolver.Solve`)

The goja JavaScript evaluation is abstracted as an `EvalOutcome` parameter;
the claim is about the control flow and state around it. -/

/-- The solver state: the extracted wrapper code (`NSolver.nFuncCode`),
empty when no n-function was found.  The Go struct has no other mutable
field relevant to `Solve`. -/
structure NSolverState : Type where
  nFuncCode : String
deriving DecidableEq, Repr

/-- Outcome of one `vm.RunString` evaluation: a runtime error, a
null/undefined result, or a value whose `String()` form is given. -/
inductive EvalOutcome : Type where
  | evalFailure : String → EvalOutcome
  | evalNullish : EvalOutcome
  | evalValue : String → EvalOutcome
deriving DecidableEq, Repr

/-- Result of one `Solve` call: the returned string, whether an error was
returned, the solver state afterwards, and whether the evaluator ran. -/
structure SolveResult : Type where
  result : String
  errored : Bool
  state : NSolverState
  attempted : Bool
deriving DecidableEq, Repr

/-- `NSolver.Solve` (nsolver.go lines 33-54): with no extracted function the
input is returned untouched and nothing is evaluated; otherwise the script
is evaluated once, a failure or nullish result yields the input back (the
failure with an error), and a value yields its string form.  The receiver
is never mutated. -/
def nsolverSolve (st : NSolverState) (n : String) (ev : EvalOutcome) : SolveResult :=
  if st.nFuncCode = "" then ⟨n, false, st, false⟩
  else
    match ev with
    | .evalFailure _ => ⟨n, true, st, true⟩
    | .evalNullish => ⟨n, false, st, true⟩
    | .evalValue s => ⟨s, false, st, true⟩

/-- Counterexample to C7 as stated: after a failed evaluation the solver
state is unchanged (no degraded mark exists in the Go struct), so an
immediately following `Solve` call runs the evaluator again instead of
short-circuiting. -/
theorem nsolver_degraded_cex :
    (nsolverSolve ⟨"var nFunction = f;"⟩ "abc" (.evalFailure "ReferenceError")).state =
        ⟨"var nFunction = f;"⟩ ∧
    (nsolverSolve
        (nsolverSolve ⟨"var nFunction = f;"⟩ "abc" (.evalFailure "ReferenceError")).state
        "abc" (.evalFailure "ReferenceError")).attempted = true := by
  decide

/-- C7 (amended).  `Solve` evaluates `nFunction(<input>)` and returns the
string result; on an evaluation failure it returns the input unchanged
together with an error, but the solver keeps no degraded flag: its state is
unchanged, so a subsequent call re-attempts evaluation whenever an
n-function was extracted.  A call short-circuits (no evaluation) exactly
when `nFuncCode` is empty. -/
theorem nsolver_solve_spec (st : NSolverState) (n : String) :
    (∀ msg, nsolverSolve st n (.evalFailure msg) =
      if st.nFuncCode = "" then ⟨n, false, st, false⟩ else ⟨n, true, st, true⟩) ∧
    (∀ s, nsolverSolve st n (.evalValue s) =
      if st.nFuncCode = "" then ⟨n, false, st, false⟩ else ⟨s, false, st, true⟩) ∧
    nsolverSolve st n .evalNullish =
      if st.nFuncCode = "" then ⟨n, false, st, false⟩ else ⟨n, false, st, true⟩ := by
  refine ⟨fun msg => ?_, fun s => ?_, ?_⟩ <;>
    · unfold nsolverSolve
      by_cases h : st.nFuncCode = "" <;> simp [h]

/-! ## Innertube client registry (src/V2/innertube/clients.go, config.go
and src/TS/src/innertube/clients.ts) -/

/-- A streaming protocol of the GVS PO-token policy matrix. -/
inductive StreamingProtocol : Type where
  | https : StreamingProtocol
  | dash : StreamingProtocol
  | hls : StreamingProtocol
deriving DecidableEq, Repr

/-- `types.PoTokenPolicy`. -/
structure PoTokenPolicy : Type where
  required : Bool
  recommended : Bool
  notRequiredForPremium : Bool
  notRequiredWithPlayerToken : Bool
deriving DecidableEq, Repr

/-- Go zero value of `PoTokenPolicy`. -/
def zeroPolicy : PoTokenPolicy := ⟨false, false, false, false⟩

/-- `innertube.ClientConfig` (config.go lines 10-36), the fields the claims
use; unset Go strings are `""` and the GVS policy map is an association
list. -/
structure ClientConfig : Type where
  name : String
  version : String
  host : String
  contextName : Nat
  userAgent : String
  deviceMake : String
  deviceModel : String
  osName : String
  osVersion : String
  requireJSPlayer : Bool
  supportsCookies : Bool
  supportsAdPlaybackContext : Bool
  requireAuth : Bool
  gvsPoTokenPolicies : List (StreamingProtocol × PoTokenPolicy)
  playerPoTokenPolicy : PoTokenPolicy
  subsPoTokenPolicy : PoTokenPolicy
deriving DecidableEq, Repr

/-- `ClientConfig.RequiresPoToken` (config.go lines 89-98): true iff some
GVS policy requires a token, or the player policy does. -/
def requiresPoToken (c : ClientConfig) : Bool :=
  c.gvsPoTokenPolicies.any (fun p => p.2.required) || c.playerPoTokenPolicy.required

/-- `innertube.Web` (clients.go lines 9-27). -/
def Web : ClientConfig :=
  { name := "WEB", version := "2.20250925.01.00", host := "www.youtube.com",
    contextName := 1,
    userAgent := "", deviceMake := "", deviceModel := "", osName := "", osVersion := "",
    requireJSPlayer := true, supportsCookies := true, supportsAdPlaybackContext := true,
    requireAuth := false,
    gvsPoTokenPolicies :=
      [(.https, ⟨true, true, true, false⟩),
       (.dash, ⟨true, true, true, false⟩),
       (.hls, ⟨false, true, false, false⟩)],
    playerPoTokenPolicy := zeroPolicy, subsPoTokenPolicy := zeroPolicy }

/-- `innertube.AndroidSDKLess` (clients.go lines 124-141): the lean
mobile-app client with no PO-token requirement. -/
def AndroidSDKLess : ClientConfig :=
  { name := "ANDROID", version := "20.10.38", host := "www.youtube.com",
    contextName := 3,
    userAgent := "com.google.android.youtube/20.10.38 (Linux; U; Android 11) gzip",
    deviceMake := "", deviceModel := "", osName := "Android", osVersion := "11",
    requireJSPlayer := false, supportsCookies := false, supportsAdPlaybackContext := false,
    requireAuth := false,
    gvsPoTokenPolicies :=
      [(.https, zeroPolicy), (.dash, zeroPolicy), (.hls, zeroPolicy)],
    playerPoTokenPolicy := zeroPolicy, subsPoTokenPolicy := zeroPolicy }

/-- `innertube.TV` (clients.go lines 205-220): the living-room client. -/
def TV : ClientConfig :=
  { name := "TVHTML5", version := "7.20250923.13.00", host := "www.youtube.com",
    contextName := 7,
    userAgent := "Mozilla/5.0 (ChromiumStylePlatform) Cobalt/Version",
    deviceMake := "", deviceModel := "", osName := "", osVersion := "",
    requireJSPlayer := true, supportsCookies := true, supportsAdPlaybackContext := false,
    requireAuth := false,
    gvsPoTokenPolicies :=
      [(.https, zeroPolicy), (.dash, zeroPolicy), (.hls, zeroPolicy)],
    playerPoTokenPolicy := zeroPolicy, subsPoTokenPolicy := zeroPolicy }

/-- `innertube.DefaultClients` of the Go tree (clients.go lines 275-278):
the anonymous default order. -/
def DefaultClients : List ClientConfig := [TV, AndroidSDKLess, Web]

/-- `DefaultClients` of the TS tree (src/TS/src/innertube/clients.ts lines
274-277), which shares the same client configurations but orders the
mobile-app client first. -/
def DefaultClientsTS : List ClientConfig := [AndroidSDKLess, Web, TV]

/-- Counterexample to C8 as stated: the Go tree's anonymous default order
starts with the living-room client `TVHTML5`, not with the mobile-app
(`ANDROID`) profile. -/
theorem default_clients_cex :
    DefaultClients.map (fun c => c.name) = ["TVHTML5", "ANDROID", "WEB"] ∧
    ¬ (DefaultClients.head?.map (fun c => c.name) = some "ANDROID") := by
  decide

/-- C8 (amended).  The Go (V2) anonymous default order is the living-room
TV client first, then the lean mobile-app client, then the web client, and
its first client does not require a PO token; the TS tree orders the
mobile-app client first, then web, then living-room — the ordering the
spec adopts — and that first client does not require a PO token either. -/
theorem default_clients_order :
    DefaultClients = [TV, AndroidSDKLess, Web] ∧
    requiresPoToken TV = false ∧
    DefaultClientsTS = [AndroidSDKLess, Web, TV] ∧
    requiresPoToken AndroidSDKLess = false ∧
    requiresPoToken Web = true := by
  decide

/-! ## Resolver client loop (src/unnamed/part_013, `Client.GetVideo` lines
449-471 and `Client.parsePlayerResponse` lines 858-904)

One innertube exchange per client is abstracted as a `PlayerAPIOutcome`:
either the POST/read failed, the JSON did not parse, or a player response
arrived carrying its `playabilityStatus` and (when playable) the parsed
video. -/

/-- The video payload parsed from a playable response (only identity
matters for the loop claim). -/
structure VideoInfo : Type where
  id : String
  title : String
deriving DecidableEq, Repr

/-- Outcome of the innertube exchange `fetchWithClient` performs for one
client, before the playability check. -/
inductive PlayerAPIOutcome : Type where
  | transportFailure : String → PlayerAPIOutcome
  | decodeFailure : String → PlayerAPIOutcome
  | playerResponse : String → String → VideoInfo → PlayerAPIOutcome
deriving DecidableEq, Repr

/-- Resolver errors of the client loop. -/
inductive ResolveErr : Type where
  | network : String → ResolveErr
  | parseFailed : String → ResolveErr
  | notPlayable : String → String → ResolveErr
  | allClientsFailed : Option ResolveErr → ResolveErr
deriving Repr

/-- `fetchWithClient` composed with `parsePlayerResponse`: transport and
decode failures are errors, and a decoded response succeeds exactly when
`playabilityStatus.status == "OK"`; otherwise the status and reason are
recorded ("video not playable"). -/
def fetchWithClient (out : PlayerAPIOutcome) : Except ResolveErr VideoInfo :=
  match out with
  | .transportFailure msg => .error (.network msg)
  | .decodeFailure msg => .error (.parseFailed msg)
  | .playerResponse status reason v =>
    if status = "OK" then .ok v else .error (.notPlayable status reason)

/-- Whether an exchange yields a playable ("OK") response. -/
def outcomeOK (out : PlayerAPIOutcome) : Bool :=
  match out with
  | .playerResponse status _ _ => status == "OK"
  | _ => false

/-- The error a failing exchange produces (meaningful when
`outcomeOK out = false`). -/
def outcomeErr (out : PlayerAPIOutcome) : ResolveErr :=
  match out with
  | .transportFailure msg => .network msg
  | .decodeFailure msg => .parseFailed msg
  | .playerResponse status reason _ => .notPlayable status reason

/-- The client loop of `GetVideo` (part_013 lines 460-470) over the
per-client outcomes, carrying `lastErr`; returns the result and the number
of clients actually attempted.  After the loop, `GetVideo` wraps the last
error in its "all clients failed" error. -/
def clientLoop : List PlayerAPIOutcome → Option ResolveErr →
    Except ResolveErr VideoInfo × Nat
  | [], lastErr => (.error (.allClientsFailed lastErr), 0)
  | out :: rest, lastErr =>
    match fetchWithClient out with
    | .ok v => (.ok v, 1)
    | .error e =>
      let r := clientLoop rest (some e)
      (r.1, r.2 + 1)

/-- The loop as entered from `GetVideo`: `lastErr` starts at nil. -/
def getVideoClients (outs : List PlayerAPIOutcome) :
    Except ResolveErr VideoInfo × Nat :=
  clientLoop outs none

theorem fetchWithClient_err {out : PlayerAPIOutcome} (h : outcomeOK out = false) :
    fetchWithClient out = .error (outcomeErr out) := by
  cases out with
  | transportFailure msg => rfl
  | decodeFailure msg => rfl
  | playerResponse status reason v =>
    have hs : ¬ status = "OK" := by simpa [outcomeOK] using h
    simp [fetchWithClient, outcomeErr, hs]

theorem clientLoop_first_ok (outs : List PlayerAPIOutcome) (k : Nat)
    (status reason : String) (v : VideoInfo) (lastErr : Option ResolveErr)
    (hbefore : ∀ i, i < k → ∃ o, outs.get? i = some o ∧ outcomeOK o = false)
    (hk : outs.get? k = some (.playerResponse status reason v))
    (hok : status = "OK") :
    clientLoop outs lastErr = (.ok v, k + 1) := by
  induction k generalizing outs lastErr with
  | zero =>
    cases outs with
    | nil => simp at hk
    | cons o rest =>
      have ho : o = .playerResponse status reason v := by simpa using hk
      subst ho
      simp [clientLoop, fetchWithClient, hok]
  | succ k ih =>
    cases outs with
    | nil => simp at hk
    | cons o rest =>
      obtain ⟨o₀, ho₀, hfail⟩ := hbefore 0 (Nat.succ_pos k)
      have ho : o = o₀ := by simpa using ho₀
      subst ho
      rw [clientLoop, fetchWithClient_err hfail]
      have hrest : clientLoop rest (some (outcomeErr o)) = (.ok v, k + 1) := by
        refine ih rest (some (outcomeErr o)) ?_ (by simpa using hk)
        intro i hi
        obtain ⟨oi, hoi, hfi⟩ := hbefore (i + 1) (Nat.succ_lt_succ hi)
        exact ⟨oi, by simpa using hoi, hfi⟩
      simp [hrest]

theorem clientLoop_all_fail (outs : List PlayerAPIOutcome) (lastErr : Option ResolveErr)
    (hne : outs ≠ []) (hfail : ∀ o ∈ outs, outcomeOK o = false) :
    clientLoop outs lastErr =
      (.error (.allClientsFailed (some (outcomeErr (outs.getLast hne)))), outs.length) := by
  induction outs generalizing lastErr with
  | nil => exact absurd rfl hne
  | cons o rest ih =>
    have hfo : outcomeOK o = false := hfail o (List.mem_cons_self o rest)
    rw [clientLoop, fetchWithClient_err hfo]
    cases rest with
    | nil => simp [clientLoop, List.getLast]
    | cons o₂ rest₂ =>
      have hne₂ : o₂ :: rest₂ ≠ [] := by simp
      have hrec := ih (some (outcomeErr o)) hne₂
        (fun x hx => hfail x (List.mem_cons_of_mem o hx))
      rw [List.getLast_cons hne₂]
      simp only [hrec]
      simp [List.length_cons]

/-- C3.  The resolver client loop is sequential and first-success:
(a) when the clients strictly before position `k` all fail and client `k`'s
    response is playable (`status == "OK"`), the loop returns that client's
    parsed video having attempted exactly the first `k + 1` clients — so
    client `k + 1` is only ever reached after client `k` failed;
(b) when every client fails, all clients are attempted and the loop returns
    the "all clients failed" error wrapping the last client's error. -/
theorem resolver_client_loop_spec :
    (∀ (outs : List PlayerAPIOutcome) (k : Nat) (status reason : String) (v : VideoInfo),
      (∀ i, i < k → ∃ o, outs.get? i = some o ∧ outcomeOK o = false) →
      outs.get? k = some (.playerResponse status reason v) →
      status = "OK" →
      getVideoClients outs = (.ok v, k + 1)) ∧
    (∀ (outs : List PlayerAPIOutcome) (hne : outs ≠ []),
      (∀ o ∈ outs, outcomeOK o = false) →
      getVideoClients outs =
        (.error (.allClientsFailed (some (outcomeErr (outs.getLast hne)))),
          outs.length)) := by
  constructor
  · intro outs k status reason v hbefore hk hok
    exact clientLoop_first_ok outs k status reason v none hbefore hk hok
  · intro outs hne hfail
    exact clientLoop_all_fail outs none hne hfail

/-- Witness for C3: a failing client followed by an "OK" client stops the
loop after two attempts with the second client's video, and a run where
both clients fail reports the second client's error. -/
theorem resolver_client_loop_spec_witness :
    getVideoClients
        [.playerResponse "LOGIN_REQUIRED" "Sign in" ⟨"x", "t0"⟩,
         .playerResponse "OK" "" ⟨"dQw4w9WgXcQ", "t1"⟩,
         .transportFailure "never reached"] =
      (.ok ⟨"dQw4w9WgXcQ", "t1"⟩, 2) ∧
    getVideoClients
        [.transportFailure "refused",
         .playerResponse "ERROR" "Video unavailable" ⟨"x", "t2"⟩] =
      (.error (.allClientsFailed (some (.notPlayable "ERROR" "Video unavailable"))), 2) := by
  constructor
  · exact resolver_client_loop_spec.1
      [.playerResponse "LOGIN_REQUIRED" "Sign in" ⟨"x", "t0"⟩,
       .playerResponse "OK" "" ⟨"dQw4w9WgXcQ", "t1"⟩,
       .transportFailure "never reached"] 1 "OK" "" ⟨"dQw4w9WgXcQ", "t1"⟩
      (by
        intro i hi
        have hi0 : i = 0 := by omega
        subst hi0
        exact ⟨_, rfl, rfl⟩)
      (by decide) rfl
  · exact resolver_client_loop_spec.2
      [.transportFailure "refused",
       .playerResponse "ERROR" "Video unavailable" ⟨"x", "t2"⟩] (by decide) (by decide)

/-! ## URL and query model (Go `net/url` as used by the rewrite paths)

The pieces of `net/url` the code relies on are embedded at the character
level: `QueryEscape`/`QueryUnescape` over single-byte characters (the
values handled here are ASCII), `ParseQuery`/`Values.Encode` with its
sorted-key output, and `Parse`/`URL.String` restricted to splitting off
the query and fragment while treating the part before the query as opaque
text (faithful for URLs whose pre-query part is already in canonical
escaped form, which the stream URLs here are; Go rejects control
characters, modelled likewise). -/

/-- Value of a hexadecimal digit character. -/
def hexDigitVal (c : Char) : Option Nat :=
  if c.isDigit then some (c.toNat - Char.toNat '0')
  else if 'a' ≤ c ∧ c ≤ 'f' then some (c.toNat - Char.toNat 'a' + 10)
  else if 'A' ≤ c ∧ c ≤ 'F' then some (c.toNat - Char.toNat 'A' + 10)
  else none

/-- Upper-case hexadecimal digit for a value below 16 (Go escapes with
`"0123456789ABCDEF"`). -/
def upperHexChar (n : Nat) : Char :=
  if n < 10 then Char.ofNat (Char.toNat '0' + n)
  else Char.ofNat (Char.toNat 'A' + (n - 10))

/-- Go `url.QueryUnescape` on characters: `%XX` decodes a byte, `+` decodes
to a space, a malformed escape is an error. -/
def unescapeQueryChars : List Char → Option (List Char)
  | [] => some []
  | '%' :: a :: b :: rest =>
    match hexDigitVal a, hexDigitVal b with
    | some ha, some hb => (unescapeQueryChars rest).map (fun l => Char.ofNat (16 * ha + hb) :: l)
    | _, _ => none
  | '%' :: _ => none
  | '+' :: rest => (unescapeQueryChars rest).map (fun l => ' ' :: l)
  | c :: rest => (unescapeQueryChars rest).map (fun l => c :: l)

/-- Go `url.QueryUnescape`. -/
def queryUnescape (s : String) : Option String :=
  (unescapeQueryChars s.data).map String.mk

/-- Characters Go leaves unescaped in a query component: alphanumerics and
`-._~`. -/
def isUnreservedQueryChar (c : Char) : Bool :=
  c.isAlphanum || c == '-' || c == '_' || c == '.' || c == '~'

/-- Go `url.QueryEscape` of one character: space becomes `+`, unreserved
characters stay, everything else becomes `%XX` (upper-case hex). -/
def escapeQueryChar (c : Char) : List Char :=
  if c = ' ' then ['+']
  else if isUnreservedQueryChar c then [c]
  else ['%', upperHexChar (c.toNat / 16 % 16), upperHexChar (c.toNat % 16)]

/-- Go `url.QueryEscape`. -/
def queryEscape (s : String) : String :=
  String.mk (s.data.flatMap escapeQueryChar)

/-- Go `url.Values`: a map from keys to value lists, as an association list
with pairwise-distinct keys (the construction below maintains that). -/
abbrev Values : Type := List (String × List String)

/-- The `m[key] = append(m[key], value)` step of `parseQuery`. -/
def valuesAppend (q : Values) (k v : String) : Values :=
  match q with
  | [] => [(k, [v])]
  | (k₀, vs) :: rest =>
    if k₀ = k then (k₀, vs ++ [v]) :: rest else (k₀, vs) :: valuesAppend rest k v

/-- Go `Values.Set`: replace the key's values with the single given value. -/
def valuesSet (q : Values) (k v : String) : Values :=
  match q with
  | [] => [(k, [v])]
  | (k₀, vs) :: rest =>
    if k₀ = k then (k₀, [v]) :: rest else (k₀, vs) :: valuesSet rest k v

/-- Go `Values.Get`: the first value under the key, `""` when absent. -/
def valuesGet (q : Values) (k : String) : String :=
  match List.lookup k q with
  | some (v :: _) => v
  | _ => ""

/-- Number of entries carried under a key (1 for every key of a
well-formed `Values`). -/
def keyCount (q : Values) (k : String) : Nat :=
  (q.filter (fun p => p.1 == k)).length

/-- Split a character list at the first occurrence of `c`
(Go `strings.Cut`): the part before, and the part after when found. -/
def splitFirst (c : Char) : List Char → List Char × Option (List Char)
  | [] => ([], none)
  | x :: xs =>
    if x = c then ([], some xs)
    else
      let r := splitFirst c xs
      (x :: r.1, r.2)

/-- Go `strings.Cut(s, string(c))`: before the first `c`, and the rest
(empty when `c` is absent). -/
def goCut (s : String) (c : Char) : String × String :=
  let r := splitFirst c s.data
  (String.mk r.1, String.mk (r.2.getD []))

/-- Whether a string contains a character (Go `strings.Contains`). -/
def containsChar (s : String) (c : Char) : Bool :=
  s.data.any (fun x => x == c)

/-- One iteration of Go `url.parseQuery`: a pair with a semicolon or a bad
escape sets the error flag and contributes nothing; an empty pair is
skipped; otherwise the pair is cut at the first `=` and both sides are
query-unescaped. -/
def parsePairKV (acc : Values × Bool) (uk uv : Option String) : Values × Bool :=
  match uk, uv with
  | some k, some v => (valuesAppend acc.1 k v, acc.2)
  | _, _ => (acc.1, true)

def parsePair (acc : Values × Bool) (kv : String) : Values × Bool :=
  if containsChar kv ';' then (acc.1, true)
  else if kv = "" then acc
  else parsePairKV acc (queryUnescape (goCut kv '=').1) (queryUnescape (goCut kv '=').2)

/-- Go `url.ParseQuery`: the parsed values together with the error flag
(`Values.Encode` callers via `URL.Query()` ignore the flag, `ParseQuery`
callers treat a set flag as an error). -/
def parseQueryGo (s : String) : Values × Bool :=
  ((if s = "" then [] else goSplit s "&").foldl parsePair ([], false))

/-- Go string `<`: lexicographic byte order (codepoint order coincides with
UTF-8 byte order). -/
def charListLt : List Char → List Char → Bool
  | [], [] => false
  | [], _ :: _ => true
  | _ :: _, [] => false
  | x :: xs, y :: ys =>
    if x.toNat < y.toNat then true
    else if y.toNat < x.toNat then false
    else charListLt xs ys

/-- Go string `<=`, as used by `sort.Strings`. -/
def stringLeGo (a b : String) : Bool :=
  !(charListLt b.data a.data)

/-- Insert into a sorted list of strings. -/
def insertSorted (x : String) : List String → List String
  | [] => [x]
  | y :: ys => if stringLeGo x y then x :: y :: ys else y :: insertSorted x ys

/-- Sort strings (Go `Values.Encode` sorts the keys with `sort.Strings`). -/
def sortStrings (l : List String) : List String :=
  l.foldr insertSorted []

/-- Go `Values.Encode`: keys in sorted order, each value of a key emitted
as `escape(k)=escape(v)`, joined with `&`. -/
def valuesEncode (q : Values) : String :=
  String.intercalate "&"
    ((sortStrings (q.map (fun p => p.1))).flatMap fun k =>
      match List.lookup k q with
      | some vs => vs.map (fun v => queryEscape k ++ "=" ++ queryEscape v)
      | none => [])

/-- The parts of a parsed Go URL the rewrite paths touch: the opaque text
before the query, the raw query, and the fragment. -/
structure GoURL : Type where
  base : String
  rawQuery : String
  fragment : String
deriving DecidableEq, Repr

/-- Go `url.Parse`, restricted as described in the section header: reject
control characters, split off the fragment at the first `#` and the raw
query at the first `?`. -/
def parseGoURL (s : String) : Option GoURL :=
  if s.data.any (fun c => decide (c.toNat < 32) || decide (c.toNat = 127)) then none
  else
    let hf := splitFirst '#' s.data
    let bq := splitFirst '?' hf.1
    some ⟨String.mk bq.1, String.mk (bq.2.getD []), String.mk (hf.2.getD [])⟩

/-- Go `URL.String` for such a URL: `?` reappears only with a non-empty
raw query, `#` only with a non-empty fragment. -/
def urlString (u : GoURL) : String :=
  u.base ++ (if u.rawQuery = "" then "" else "?" ++ u.rawQuery)
    ++ (if u.fragment = "" then "" else "#" ++ u.fragment)

/-! ## PO-token URL attachment (src/unnamed/part_002, package POToken) -/

/-- Go `strings.TrimRight(s, "/")`. -/
def trimTrailingSlashes (s : String) : String :=
  String.mk ((s.data.reverse.dropWhile (fun c => c == '/')).reverse)

/-- `POToken.ApplyToHLSManifestURL` (part_002 lines 209-225): with a
non-empty token, trailing slashes are removed and `/pot/<token>` appended. -/
def applyToHLSManifestURL (manifestURL poToken : String) : String :=
  if poToken = "" then manifestURL
  else trimTrailingSlashes manifestURL ++ "/pot/" ++ poToken

/-- `POToken.ApplyToSegmentURL` (part_002 lines 239-261): with a non-empty
token and a parseable URL, set the `pot` query parameter and re-encode the
query; otherwise the URL is returned unchanged. -/
def applyToSegmentURL (segmentURL poToken : String) : String :=
  if poToken = "" then segmentURL
  else
    match parseGoURL segmentURL with
    | none => segmentURL
    | some u =>
      urlString { u with
        rawQuery := valuesEncode (valuesSet (parseQueryGo u.rawQuery).1 "pot" poToken) }

/-! ## Signature-cipher URL rewrite (src/unnamed/part_013,
`Client.decipherURL` lines 971-999) -/

/-- The signature parameter name: the cipher's `sp` field, defaulting to
`"sig"` when absent (part_013 lines 979-982). -/
def cipherSigParam (params : Values) : String :=
  if valuesGet params "sp" = "" then "sig" else valuesGet params "sp"

/-- `Client.decipherURL`: parse the `signatureCipher` as a URL-encoded
query; on success take its `url`, `s` and `sp` fields; when a signature is
present and a decipherer exists, decipher it and set `<sp>=<deciphered>`
on the stream URL's query; otherwise return the `url` field as is.  The
outer `Option` models a panic of `DecipherSignature`; the `Except` models
the Go error return. -/
def clientDecipherURL (hasDecipherer : Bool) (sigTokens : List String)
    (signatureCipher : String) : Option (Except String String) :=
  let parsed := parseQueryGo signatureCipher
  if parsed.2 then some (.error "invalid query")
  else
    let streamURL := valuesGet parsed.1 "url"
    let signature := valuesGet parsed.1 "s"
    if signature ≠ "" ∧ hasDecipherer then
      match decipherSignature sigTokens signature with
      | none => none
      | some deciphered =>
        match parseGoURL streamURL with
        | none => some (.error "url parse failure")
        | some u =>
          some (.ok (urlString { u with
            rawQuery := valuesEncode
              (valuesSet (parseQueryGo u.rawQuery).1 (cipherSigParam parsed.1) deciphered) }))
    else some (.ok streamURL)

theorem lookup_valuesSet_self (q : Values) (k v : String) :
    List.lookup k (valuesSet q k v) = some [v] := by
  induction q with
  | nil => simp [valuesSet, List.lookup]
  | cons p rest ih =>
    obtain ⟨k₀, vs⟩ := p
    simp only [valuesSet]
    by_cases hk : k₀ = k
    · rw [if_pos hk]
      subst hk
      simp [List.lookup]
    · rw [if_neg hk]
      have hbk : (k == k₀) = false := by
        simp [beq_iff_eq]
        exact fun h => hk h.symm
      simp [List.lookup, hbk, ih]

theorem lookup_valuesSet_ne (q : Values) (k v k₂ : String) (h : k₂ ≠ k) :
    List.lookup k₂ (valuesSet q k v) = List.lookup k₂ q := by
  induction q with
  | nil =>
    have hbk : (k₂ == k) = false := by simp [beq_iff_eq, h]
    simp [valuesSet, List.lookup, hbk]
  | cons p rest ih =>
    obtain ⟨k₀, vs⟩ := p
    simp only [valuesSet]
    by_cases hk : k₀ = k
    · rw [if_pos hk]
      subst hk
      have hbk : (k₂ == k₀) = false := by simp [beq_iff_eq, h]
      simp [List.lookup, hbk]
    · rw [if_neg hk]
      by_cases hk₂ : k₂ = k₀
      · subst hk₂
        simp [List.lookup]
      · have hbk : (k₂ == k₀) = false := by simp [beq_iff_eq, hk₂]
        simp [List.lookup, hbk, ih]

theorem valuesGet_valuesSet_self (q : Values) (k v : String) :
    valuesGet (valuesSet q k v) k = v := by
  simp [valuesGet, lookup_valuesSet_self]

theorem valuesGet_valuesSet_ne (q : Values) (k v k₂ : String) (h : k₂ ≠ k) :
    valuesGet (valuesSet q k v) k₂ = valuesGet q k₂ := by
  simp [valuesGet, lookup_valuesSet_ne q k v k₂ h]

theorem keyCount_eq_zero_of_not_mem (q : Values) (k : String)
    (h : k ∉ q.map (fun p => p.1)) : keyCount q k = 0 := by
  induction q with
  | nil => rfl
  | cons p rest ih =>
    obtain ⟨k₀, vs⟩ := p
    have h₁ : ¬ k = k₀ := by
      intro he
      exact h (by simp [he])
    have h₂ : k ∉ rest.map (fun p => p.1) := by
      intro hm
      exact h (by simp [hm])
    rw [keyCount, List.filter_cons, if_neg (by simp [beq_iff_eq]; exact fun he => h₁ he.symm)]
    exact ih h₂

theorem keyCount_valuesSet (q : Values) (k v : String)
    (hnd : (q.map (fun p => p.1)).Nodup) : keyCount (valuesSet q k v) k = 1 := by
  induction q with
  | nil => simp [valuesSet, keyCount, List.filter_cons]
  | cons p rest ih =>
    obtain ⟨k₀, vs⟩ := p
    rw [List.map_cons, List.nodup_cons] at hnd
    simp only [valuesSet]
    by_cases hk : k₀ = k
    · rw [if_pos hk]
      have hz : keyCount rest k = 0 :=
        keyCount_eq_zero_of_not_mem rest k (hk ▸ hnd.1)
      rw [keyCount, List.filter_cons, if_pos (by simp [beq_iff_eq, hk]), List.length_cons]
      have hz₂ : (List.filter (fun p => p.1 == k) rest).length = 0 := hz
      omega
    · rw [if_neg hk]
      rw [keyCount, List.filter_cons, if_neg (by simp [beq_iff_eq, hk])]
      exact ih hnd.2

theorem keys_valuesAppend (q : Values) (k v : String) :
    (valuesAppend q k v).map (fun p => p.1) =
      (if k ∈ q.map (fun p => p.1) then q.map (fun p => p.1)
       else q.map (fun p => p.1) ++ [k]) := by
  induction q with
  | nil => simp [valuesAppend]
  | cons p rest ih =>
    obtain ⟨k₀, vs⟩ := p
    simp only [valuesAppend]
    by_cases hk : k₀ = k
    · rw [if_pos hk]
      subst hk
      simp
    · rw [if_neg hk]
      have hne : ¬ k = k₀ := fun h => hk h.symm
      simp only [List.map_cons, List.mem_cons, ih]
      by_cases hmem : k ∈ rest.map (fun p => p.1)
      · simp [hmem, hne]
      · simp [hmem, hne]

theorem nodup_keys_valuesAppend (q : Values) (k v : String)
    (hnd : (q.map (fun p => p.1)).Nodup) :
    ((valuesAppend q k v).map (fun p => p.1)).Nodup := by
  rw [keys_valuesAppend]
  by_cases hmem : k ∈ q.map (fun p => p.1)
  · rwa [if_pos hmem]
  · rw [if_neg hmem]
    refine List.Nodup.append hnd (List.nodup_singleton k) ?_
    intro x hx hx₂
    simp only [List.mem_singleton] at hx₂
    subst hx₂
    exact hmem hx

theorem nodup_keys_parsePairKV (acc : Values × Bool) (uk uv : Option String)
    (hnd : (acc.1.map (fun p => p.1)).Nodup) :
    ((parsePairKV acc uk uv).1.map (fun p => p.1)).Nodup := by
  cases uk with
  | none => cases uv <;> exact hnd
  | some k =>
    cases uv with
    | none => exact hnd
    | some v => exact nodup_keys_valuesAppend _ _ _ hnd

theorem nodup_keys_parsePair (acc : Values × Bool) (kv : String)
    (hnd : (acc.1.map (fun p => p.1)).Nodup) :
    ((parsePair acc kv).1.map (fun p => p.1)).Nodup := by
  unfold parsePair
  split
  · exact hnd
  · split
    · exact hnd
    · exact nodup_keys_parsePairKV _ _ _ hnd

theorem nodup_keys_parse_fold (l : List String) (acc : Values × Bool)
    (hnd : (acc.1.map (fun p => p.1)).Nodup) :
    ((l.foldl parsePair acc).1.map (fun p => p.1)).Nodup := by
  induction l generalizing acc with
  | nil => exact hnd
  | cons kv rest ih =>
    rw [List.foldl_cons]
    exact ih (parsePair acc kv) (nodup_keys_parsePair acc kv hnd)

theorem nodup_keys_parseQueryGo (s : String) :
    ((parseQueryGo s).1.map (fun p => p.1)).Nodup := by
  unfold parseQueryGo
  exact nodup_keys_parse_fold _ ([], false) (by simp)

/-- C9.  Token attachment follows the role-specific grammar:
(a) for every URL and non-empty token, the manifest attachment is the URL
    with its trailing slashes removed followed by `/pot/<token>`;
(b) for every parseable URL and non-empty token, the segment attachment
    re-encodes the query with `pot` set to the token: `pot` maps to exactly
    the token, every other parameter keeps its value, and `pot` is carried
    once (replaced, not duplicated). -/
theorem po_token_attachment_grammar :
    (∀ url tok : String, tok ≠ "" →
      applyToHLSManifestURL url tok = trimTrailingSlashes url ++ "/pot/" ++ tok) ∧
    (∀ (s tok : String) (u : GoURL), tok ≠ "" → parseGoURL s = some u →
      applyToSegmentURL s tok =
        urlString { u with
          rawQuery := valuesEncode (valuesSet (parseQueryGo u.rawQuery).1 "pot" tok) } ∧
      valuesGet (valuesSet (parseQueryGo u.rawQuery).1 "pot" tok) "pot" = tok ∧
      (∀ k, k ≠ "pot" →
        valuesGet (valuesSet (parseQueryGo u.rawQuery).1 "pot" tok) k =
          valuesGet (parseQueryGo u.rawQuery).1 k) ∧
      keyCount (valuesSet (parseQueryGo u.rawQuery).1 "pot" tok) "pot" = 1) := by
  constructor
  · intro url tok htok
    simp [applyToHLSManifestURL, htok]
  · intro s tok u htok hparse
    refine ⟨?_, valuesGet_valuesSet_self _ _ _,
      fun k hk => valuesGet_valuesSet_ne _ _ _ _ hk,
      keyCount_valuesSet _ _ _ (nodup_keys_parseQueryGo u.rawQuery)⟩
    simp [applyToSegmentURL, htok, hparse]

/-- Witness for C9 at the spec's concrete examples: token `"T"` on the
manifest URL `"https://h/x/"` and on the segment URL
`"https://h/seg?foo=1"`. -/
theorem po_token_attachment_grammar_witness :
    applyToHLSManifestURL "https://h/x/" "T" =
      trimTrailingSlashes "https://h/x/" ++ "/pot/" ++ "T" ∧
    applyToSegmentURL "https://h/seg?foo=1" "T" =
      urlString ⟨"https://h/seg", valuesEncode (valuesSet (parseQueryGo "foo=1").1 "pot" "T"), ""⟩ ∧
    keyCount (valuesSet (parseQueryGo "foo=1").1 "pot" "T") "pot" = 1 := by
  refine ⟨po_token_attachment_grammar.1 "https://h/x/" "T" (by decide), ?_, ?_⟩
  · exact (po_token_attachment_grammar.2 "https://h/seg?foo=1" "T"
      ⟨"https://h/seg", "foo=1", ""⟩ (by decide) (by decide)).1
  · exact (po_token_attachment_grammar.2 "https://h/seg?foo=1" "T"
      ⟨"https://h/seg", "foo=1", ""⟩ (by decide) (by decide)).2.2.2

/-- The manifest attachment on the spec's example produces exactly
`"https://h/x/pot/T"`, and the segment attachment produces exactly
`"https://h/seg?foo=1&pot=T"`; an existing `pot` is replaced, not
duplicated. -/
theorem po_token_attachment_examples :
    applyToHLSManifestURL "https://h/x/" "T" = "https://h/x/pot/T" ∧
    applyToSegmentURL "https://h/seg?foo=1" "T" = "https://h/seg?foo=1&pot=T" ∧
    applyToSegmentURL "https://h/seg?pot=OLD&foo=1" "T" = "https://h/seg?foo=1&pot=T" := by
  decide

/-- C4.  When a format carries only a `signatureCipher`, `decipherURL`
parses it as a URL-encoded query (fields `url`, `s`, `sp`): with the cipher
query well-formed, a non-empty `s`, a decipherer present, a panic-free
signature replay and a parseable `url` field, the result is the `url` field
with `<sp>=<deciphered>` set on its query, where the parameter name
defaults to `"sig"` when `sp` is absent; the deciphered value is carried
under exactly that name and every other query parameter of the inner URL is
unchanged — the cipher's `s` and `sp` fields are not copied into the
output. -/
theorem cipher_url_rewrite_spec (sigTokens : List String) (cipher dec : String) (u : GoURL)
    (hq : (parseQueryGo cipher).2 = false)
    (hs : valuesGet (parseQueryGo cipher).1 "s" ≠ "")
    (hdec : decipherSignature sigTokens (valuesGet (parseQueryGo cipher).1 "s") = some dec)
    (hurl : parseGoURL (valuesGet (parseQueryGo cipher).1 "url") = some u) :
    clientDecipherURL true sigTokens cipher =
      some (.ok (urlString { u with
        rawQuery := valuesEncode (valuesSet (parseQueryGo u.rawQuery).1
          (cipherSigParam (parseQueryGo cipher).1) dec) })) ∧
    (valuesGet (parseQueryGo cipher).1 "sp" = "" →
      cipherSigParam (parseQueryGo cipher).1 = "sig") ∧
    valuesGet (valuesSet (parseQueryGo u.rawQuery).1
        (cipherSigParam (parseQueryGo cipher).1) dec)
      (cipherSigParam (parseQueryGo cipher).1) = dec ∧
    (∀ k, k ≠ cipherSigParam (parseQueryGo cipher).1 →
      valuesGet (valuesSet (parseQueryGo u.rawQuery).1
          (cipherSigParam (parseQueryGo cipher).1) dec) k =
        valuesGet (parseQueryGo u.rawQuery).1 k) := by
  refine ⟨?_, ?_, valuesGet_valuesSet_self _ _ _,
    fun k hk => valuesGet_valuesSet_ne _ _ _ _ hk⟩
  · simp [clientDecipherURL, hq, hs, hdec, hurl]
  · intro hsp
    simp [cipherSigParam, hsp]

/-- Witness for C4: the cipher `"s=CBA&url=https://h/v"` (no `sp` field)
with the single reverse token deciphers `"CBA"` to `"ABC"` and attaches it
under the default name `"sig"`. -/
theorem cipher_url_rewrite_spec_witness :
    clientDecipherURL true ["r"] "s=CBA&url=https://h/v" =
      some (.ok (urlString
        ⟨"https://h/v",
          valuesEncode (valuesSet (parseQueryGo "").1
            (cipherSigParam (parseQueryGo "s=CBA&url=https://h/v").1) "ABC"), ""⟩)) ∧
    cipherSigParam (parseQueryGo "s=CBA&url=https://h/v").1 = "sig" := by
  constructor
  · exact (cipher_url_rewrite_spec ["r"] "s=CBA&url=https://h/v" "ABC"
      ⟨"https://h/v", "", ""⟩ (by decide) (by decide) (by decide) (by decide)).1
  · exact (cipher_url_rewrite_spec ["r"] "s=CBA&url=https://h/v" "ABC"
      ⟨"https://h/v", "", ""⟩ (by decide) (by decide) (by decide) (by decide)).2.1 (by decide)

/-- The cipher rewrite on the witness input produces exactly
`"https://h/v?sig=ABC"`: `sig` is set, no `s` or `sp` parameter appears. -/
theorem cipher_url_rewrite_example :
    clientDecipherURL true ["r"] "s=CBA&url=https://h/v" = some (.ok "https://h/v?sig=ABC") :=
  rfl

end OverturePlay
